import Mathlib

/-!
Shallow embedding of the core of the `ckb-bitcoin-spv-service` repository
(`src/components/...`) together with proofs about its specified behaviour.

Conventions of the embedding:
* machine integers (`u32`, `u64`, `u8`) become `Nat`; the heights, counts and
  positions handled by the service stay far below any wrap-around, and no
  claim under study depends on overflow behaviour;
* fallible Rust functions returning `Result` become `Except StgError`;
* the Bitcoin double-SHA256 block hash of a header cannot be computed inside
  the model, so every definition that needs it takes the hash function
  `bh : Header → Hash` as an explicit parameter;
* the RocksDB key-value store becomes the record `StorageState`: its two
  column families are total maps `Nat → Option _`, and the singleton keys are
  `Option` fields.  Low-level `get`/`put` calls never fail in the model (the
  claims treat the KV engine as functional).
-/

namespace Spv

abbrev Hash := Nat

/-- Source `bitcoin::block::Header`: the 80-byte Bitcoin block header with fields
(version, `prev_blockhash`, `merkle_root`, `time`, `bits`, `nonce`). -/
structure Header where
  version : Nat
  prev_blockhash : Hash
  merkle_root : Hash
  time : Nat
  bits : Nat
  nonce : Nat
  deriving DecidableEq, Repr

/-- The error type of the storage and service layers
(`src/components/storage/result.rs`, `src/result.rs`); only the constructor
matters for the claims, the message strings are carried for fidelity. -/
inductive StgError where
  | notFound (what : String)
  | dataError (msg : String)
  | otherError (msg : String)
  deriving DecidableEq, Repr

/-- Source `HeaderDigest` (spec section 3): an MMR node carrying a height range, the
accumulated chain work (called partial chain work in the source) and a hash. -/
structure HeaderDigest where
  min_height : Nat
  max_height : Nat
  chain_work : Nat
  header_hash : Hash
  deriving DecidableEq, Repr

/-- The persistent state of one data directory (spec section 3): the two
column families `bitcoin-headers` and `bitcoin-header-mmr` plus the default
column family holding the four singleton keys. -/
structure StorageState where
  base_height : Option Nat
  tip_height : Option Nat
  headers : Nat → Option Header
  header_mmr : Nat → Option HeaderDigest
  spv_contract_type_script : Option Nat
  spv_contract_cell_dep : Option Nat
  lock_contract_cell_dep : Option Nat

/-- Source `StorageReader::get_base_bitcoin_height`
(`src/components/storage/internal/reader.rs`): the cached base height. -/
def get_base_bitcoin_height (st : StorageState) : Except StgError (Option Nat) :=
  .ok st.base_height

/-- Source `StorageReader::get_tip_bitcoin_height`: fails with `not_found` when the
tip singleton has never been written. -/
def get_tip_bitcoin_height (st : StorageState) : Except StgError Nat :=
  match st.tip_height with
  | some h => .ok h
  | none => .error (.notFound "tip bitcoin height")

/-- Source `StorageReader::get_bitcoin_header`: fails with `not_found` when the
headers column has no entry at `height`. -/
def get_bitcoin_header (st : StorageState) (height : Nat) : Except StgError Header :=
  match st.headers height with
  | some hdr => .ok hdr
  | none => .error (.notFound "header")

/-- Source `StorageWriter::put_tip_bitcoin_height`
(`src/components/storage/internal/writer.rs` lines 27-30): a single point
write of the tip singleton. -/
def put_tip_bitcoin_height (st : StorageState) (height : Nat) : StorageState :=
  { st with tip_height := some height }

/-- Source `StorageWriter::put_bitcoin_header`: point write into the headers column
family keyed by height. -/
def put_bitcoin_header (st : StorageState) (height : Nat) (hdr : Header) : StorageState :=
  { st with headers := fun x => if x = height then some hdr else st.headers x }

/-- Source `StorageWriter::put_bitcoin_header_digest`: point write into the
header-mmr column family keyed by MMR position. -/
def put_bitcoin_header_digest (st : StorageState) (position : Nat) (d : HeaderDigest) :
    StorageState :=
  { st with header_mmr := fun x => if x = position then some d else st.header_mmr x }

/-- Number of ones in the binary expansion (`u64::count_ones`), with an
explicit fuel argument so the recursion is structural: `n / 2 < n` keeps the
invariant `n ≤ fuel`. -/
def popcount_aux : Nat → Nat → Nat
  | 0, _ => 0
  | _ + 1, 0 => 0
  | fuel + 1, n => n % 2 + popcount_aux fuel (n / 2)

/-- Number of ones in the binary expansion, as `u64::count_ones`. -/
def popcount (n : Nat) : Nat := popcount_aux n n

/-- Modelled from the spec (section 4.2): the canonical leaf-count-to-size map
of the MMR position scheme shared with the on-chain verifier; the library
implementing it is outside `src/`.  After the leaf with index `i` the MMR has
`2*(i+1) - popcount (i+1)` nodes. -/
def leaf_index_to_mmr_size (i : Nat) : Nat := 2 * (i + 1) - popcount (i + 1)

/-- Modelled from the spec (section 4.2): the canonical leaf-index-to-position
map; leaf `i` sits at position `2*i - popcount i`. -/
def leaf_index_to_pos (i : Nat) : Nat := 2 * i - popcount i

/-- Source `HeaderDigest::new_leaf(height, hash)` of the verifier library (outside
`src/`), modelled from the spec: a leaf digest covers the single height and
records the header hash.  The chain work of a leaf is never inspected by any
claim and is fixed to zero. -/
def HeaderDigest.new_leaf (height : Nat) (hash : Hash) : HeaderDigest :=
  { min_height := height, max_height := height, chain_work := 0, header_hash := hash }

/-- Modelled from the spec (section 3): internal MMR nodes aggregate two
children by combining ranges and chain work; the exact hash aggregation is
fixed by the on-chain verifier and is opaque to every claim, so the model
combines the child hashes with the injective `Nat.pair`. -/
def HeaderDigest.merge (a b : HeaderDigest) : HeaderDigest :=
  { min_height := min a.min_height b.min_height
    max_height := max a.max_height b.max_height
    chain_work := a.chain_work + b.chain_work
    header_hash := Nat.pair a.header_hash b.header_hash }

/-- Modelled from the spec (section 4.2): the append-only MMR engine lives in
the external verifier / merkle-mountain-range libraries; only its store trait
implementation (`src/components/storage/internal/mmr.rs`) is under `src/`.
The transient working set is the list of leaves pushed since creation;
`commit` flushes it through the store `append`. -/
structure ClientRootMMR where
  init_size : Nat
  pushed : List HeaderDigest

/-- Source `MMR::new(size, store)`. -/
def ClientRootMMR.new (size : Nat) : ClientRootMMR :=
  { init_size := size, pushed := [] }

/-- Modelled from the spec (section 4.2): `push(leaf)` appends one leaf to the
transient working set (the merged peak nodes it may also create are outside
what any claim observes). -/
def ClientRootMMR.push (m : ClientRootMMR) (d : HeaderDigest) : ClientRootMMR :=
  { m with pushed := m.pushed ++ [d] }

/-- Modelled from the spec (section 4.2): `get_root()` is the bag-of-peaks
root; it fails on an empty MMR, and otherwise folds the aggregation rule over
the stored nodes and the transient working set.  No claim under study
inspects the root value produced by this engine. -/
def ClientRootMMR.get_root (m : ClientRootMMR) (st : StorageState) :
    Except StgError HeaderDigest :=
  let stored := (List.range m.init_size).filterMap st.header_mmr
  match stored ++ m.pushed with
  | [] => .error (.otherError "get root on an empty MMR")
  | d :: ds => .ok (ds.foldl HeaderDigest.merge d)

/-- Modelled from the spec (sections 4.2 and 4.3): `gen_proof(positions)`
produces a Merkle proof for a set of leaf positions.  The library rejects an
empty position set; per section 4.3 this is exactly what makes
`generate_spv_client_and_spv_update` fail whenever `storage_tip ≤
prev_height`.  The proof items themselves are opaque to every claim and are
modelled as the digests stored at the requested positions. -/
def ClientRootMMR.gen_proof (m : ClientRootMMR) (st : StorageState) (positions : List Nat) :
    Except StgError (List HeaderDigest) :=
  if positions.isEmpty then .error (.otherError "gen proof for empty positions")
  else .ok (positions.filterMap st.header_mmr)

/-- Source `MMRStoreWriteOps::append` (`src/components/storage/internal/mmr.rs`
lines 24-32): writes `elems` at consecutive positions starting from `pos`. -/
def store_append (st : StorageState) (pos : Nat) (elems : List HeaderDigest) : StorageState :=
  match elems with
  | [] => st
  | e :: es => store_append (put_bitcoin_header_digest st pos e) (pos + 1) es

/-- Modelled from the spec (section 4.2): `commit()` flushes the buffered
mutations of the transient working set back to the store, through the store
`append` at the positions following the creation size. -/
def ClientRootMMR.commit (m : ClientRootMMR) (st : StorageState) : StorageState :=
  store_append st m.init_size m.pushed

/-- Source `InternalBitcoinSpvStorage::chain_root_mmr`
(`src/components/storage/prelude.rs` lines 59-71): checks the base height and
opens the MMR whose size covers the leaves `[base, current_height]`. -/
def chain_root_mmr (st : StorageState) (current_height : Nat) :
    Except StgError (Nat × ClientRootMMR) :=
  match st.base_height with
  | none => .error (.notFound "base bitcoin height")
  | some base_height =>
    if current_height < base_height then
      .error (.dataError "base height is larger than input")
    else
      let index := current_height - base_height
      let mmr_size := leaf_index_to_mmr_size index
      .ok (base_height, ClientRootMMR.new mmr_size)

/-- Source `BitcoinSpvStorage::tip_state` (`src/components/storage/prelude.rs`):
the tip height together with the header stored at it. -/
def tip_state (st : StorageState) : Except StgError (Nat × Header) :=
  match get_tip_bitcoin_height st with
  | .error e => .error e
  | .ok height =>
    match get_bitcoin_header st height with
    | .error e => .error e
    | .ok hdr => .ok (height, hdr)

/-- Source `BitcoinSpvStorage::bitcoin_header_hash`: block hash of the stored header
at `height`. -/
def bitcoin_header_hash (bh : Header → Hash) (st : StorageState) (height : Nat) :
    Except StgError Hash :=
  match get_bitcoin_header st height with
  | .error e => .error e
  | .ok hdr => .ok (bh hdr)

/-- The loop body of `BitcoinSpvStorage::append_headers`
(`src/components/storage/prelude.rs` lines 129-150): walks the input headers,
checks each `prev_blockhash` against the running tip hash, writes the header
and pushes the MMR leaf.  The running state is
`(store, mmr, tip_height, tip_header, tip_hash, positions)`. -/
def append_loop (bh : Header → Hash) (base_height : Nat) :
    List Header → StorageState → ClientRootMMR → Nat → Header → Hash → List Nat →
    Except StgError (StorageState × ClientRootMMR × Nat × Header × List Nat)
  | [], st, mmr, tip_height, tip_header, _tip_hash, positions =>
    .ok (st, mmr, tip_height, tip_header, positions)
  | header :: rest, st, mmr, tip_height, tip_header, tip_hash, positions =>
    let prev_hash := header.prev_blockhash
    if tip_hash ≠ prev_hash then
      .error (.dataError "input headers are uncontinuous")
    else
      let tip_height := tip_height + 1
      let tip_header := header
      let tip_hash := bh header
      let index := tip_height - base_height
      let position := leaf_index_to_pos index
      let digest := HeaderDigest.new_leaf tip_height tip_hash
      append_loop bh base_height rest (put_bitcoin_header st tip_height tip_header)
        (mmr.push digest) tip_height tip_header tip_hash (positions ++ [position])

/-- Source `BitcoinSpvStorage::append_headers` (`src/components/storage/prelude.rs`
lines 119-156): rejects an empty input, walks the headers from the stored
tip, then commits the MMR and writes the new tip height; returns the new
`(tip_height, tip_header)`. -/
def append_headers (bh : Header → Hash) (st : StorageState) (headers : List Header) :
    Except StgError (StorageState × Nat × Header) :=
  if headers.isEmpty then .error (.notFound "input headers")
  else
    match tip_state st with
    | .error e => .error e
    | .ok (tip_height, tip_header) =>
      let tip_hash := bh tip_header
      match chain_root_mmr st tip_height with
      | .error e => .error e
      | .ok (base_height, mmr) =>
        match append_loop bh base_height headers st mmr tip_height tip_header tip_hash [] with
        | .error e => .error e
        | .ok (st, mmr, tip_height, tip_header, _positions) =>
          let st := mmr.commit st
          let st := put_tip_bitcoin_height st tip_height
          .ok (st, tip_height, tip_header)

/-- Source `BitcoinSpvStorage::rollback_to` (`src/components/storage/prelude.rs`
lines 251-260): a single point write of the tip singleton; with `none` the
tip falls back to the base height, failing on an uninitialized store. -/
def rollback_to (st : StorageState) (height_opt : Option Nat) : Except StgError StorageState :=
  match height_opt with
  | some height => .ok (put_tip_bitcoin_height st height)
  | none =>
    match st.base_height with
    | some height => .ok (put_tip_bitcoin_height st height)
    | none => .error (.dataError "do not rollback on an empty storage")

/-- Source `TargetAdjustInfo` (verifier library, outside `src/`), modelled from the
spec: `encode(time, bits)` serialises the pair; the model keeps the pair. -/
structure TargetAdjustInfo where
  start_time : Nat
  bits : Nat
  deriving DecidableEq, Repr

/-- Source `packed::TargetAdjustInfo::encode`. -/
def TargetAdjustInfo.encode (time bits : Nat) : TargetAdjustInfo :=
  { start_time := time, bits := bits }

/-- Source `SpvClient` (spec section 3). -/
structure SpvClient where
  id : Nat
  tip_block_hash : Hash
  headers_mmr_root : HeaderDigest
  target_adjust_info : TargetAdjustInfo
  deriving DecidableEq, Repr

/-- Source `packed::SpvUpdate`: the payload consumed by the on-chain verifier. -/
structure SpvUpdate where
  headers : List Header
  new_headers_mmr_proof : List HeaderDigest
  deriving DecidableEq, Repr

/-- The difficulty-window functions of the verifier library (outside `src/`):
`Target::from(bits)`, `calculate_next_target` and `Target::to_compact_lossy`.
They are kept as opaque parameters; every theorem about
`generate_spv_client_and_spv_update` holds for any instantiation. -/
structure RetargetFns where
  bits_to_target : Nat → Nat
  calculate_next_target : Nat → Nat → Nat → Nat
  to_compact_lossy : Nat → Nat

/-- Source `bitcoin::constants::DIFFCHANGE_INTERVAL`: the 2016-block retarget window. -/
def DIFFCHANGE_INTERVAL : Nat := 2016

/-- The ascending Rust range `a..b`. -/
def rangeAsc (a b : Nat) : List Nat := List.range' a (b - a)

/-- The ascending inclusive Rust range `a..=b`. -/
def rangeIncl (a b : Nat) : List Nat := List.range' a (b + 1 - a)

/-- The working tip computed at the top of
`BitcoinSpvStorage::generate_spv_client_and_spv_update`
(`src/components/storage/prelude.rs` lines 163-166): the storage tip, clamped
to `prev_height + limit`. -/
def workingTip (stg_tip prev_height limit : Nat) : Nat :=
  if stg_tip > prev_height + limit then prev_height + limit else stg_tip

/-- Source `BitcoinSpvStorage::generate_spv_client_and_spv_update`
(`src/components/storage/prelude.rs` lines 158-231): clamps the tip, collects
the MMR root and proof for the new leaves, collects the headers
`(prev_height+1)..=tip`, computes the target adjust info of the next
difficulty window, and assembles the would-be `SpvClient` plus `SpvUpdate`. -/
def generate_spv_client_and_spv_update (bh : Header → Hash) (rf : RetargetFns)
    (st : StorageState) (prev_height limit : Nat) :
    Except StgError (SpvClient × SpvUpdate) :=
  match get_tip_bitcoin_height st with
  | .error e => .error e
  | .ok stg_tip =>
    let tip_height := workingTip stg_tip prev_height limit
    match get_bitcoin_header st tip_height with
    | .error e => .error e
    | .ok tip_header =>
      match chain_root_mmr st tip_height with
      | .error e => .error e
      | .ok (base_height, mmr) =>
        let positions := (rangeAsc prev_height tip_height).map
          (fun height => leaf_index_to_pos (height + 1 - base_height))
        match mmr.get_root st with
        | .error e => .error e
        | .ok headers_mmr_root =>
          match mmr.gen_proof st positions with
          | .error e => .error e
          | .ok headers_mmr_proof =>
            match (rangeIncl (prev_height + 1) tip_height).mapM (get_bitcoin_header st) with
            | .error e => .error e
            | .ok headers =>
              let flag := (tip_height + 1) % DIFFCHANGE_INTERVAL
              let info_result : Except StgError TargetAdjustInfo :=
                if flag = 1 then
                  .ok (TargetAdjustInfo.encode tip_header.time tip_header.bits)
                else
                  let start_height := tip_height / DIFFCHANGE_INTERVAL * DIFFCHANGE_INTERVAL
                  match get_bitcoin_header st start_height with
                  | .error e => .error e
                  | .ok start_header =>
                    if flag = 0 then
                      let curr_target := rf.bits_to_target tip_header.bits
                      let next_target :=
                        rf.calculate_next_target curr_target start_header.time tip_header.time
                      let next_bits := rf.to_compact_lossy next_target
                      .ok (TargetAdjustInfo.encode start_header.time next_bits)
                    else
                      .ok (TargetAdjustInfo.encode start_header.time start_header.bits)
              match info_result with
              | .error e => .error e
              | .ok target_adjust_info =>
                .ok
                  ({ id := 0
                     tip_block_hash := bh tip_header
                     headers_mmr_root := headers_mmr_root
                     target_adjust_info := target_adjust_info },
                   { headers := headers, new_headers_mmr_proof := headers_mmr_proof })

/-! ### The Bitcoin source client

The remote Bitcoin chain reachable over JSON-RPC is modelled as an oracle:
a tip height together with a header for each height the remote can serve. -/

/-- The remote Bitcoin chain as seen through the JSON-RPC endpoint. -/
structure BtcOracle where
  tip_height : Nat
  header_at : Nat → Option Header

/-- Source `BitcoinClient::get_block_header_by_height`
(`src/components/bitcoin_client.rs` lines 194-197): `getblockhash` followed
by `getblockheader`; a height the remote cannot serve is an RPC error. -/
def get_block_header_by_height (orc : BtcOracle) (height : Nat) : Except StgError Header :=
  match orc.header_at height with
  | some hdr => .ok hdr
  | none => .error (.otherError "bitcoin rpc failure")

/-- Source `BitcoinClient::get_headers(start, end)` translated from
`src/components/bitcoin_client.rs` lines 251-259: downloads the header at
each height of `start..=end` in order.  Note: this function performs no
`prev_blockhash` verification and returns the plain list. -/
def get_headers (orc : BtcOracle) (start end_height : Nat) : Except StgError (List Header) :=
  (rangeIncl start end_height).mapM (get_block_header_by_height orc)

/-- Modelled from the spec (section 4.4): the three-argument
`get_headers(start, end, expected_start_prev_hash)` that
`SpvService::sync_storage` calls is absent from `src/` (the file
`bitcoin_client.rs` holds the older two-argument form above); per the spec it
verifies each downloaded header's `prev_blockhash` against the previous one
and returns `None` when the link breaks. -/
def get_headers_checked_loop (bh : Header → Hash) (orc : BtcOracle) :
    List Nat → Hash → Except StgError (Option (List Header))
  | [], _expected => .ok (some [])
  | height :: rest, expected =>
    match get_block_header_by_height orc height with
    | .error e => .error e
    | .ok hdr =>
      if hdr.prev_blockhash ≠ expected then .ok none
      else
        match get_headers_checked_loop bh orc rest (bh hdr) with
        | .error e => .error e
        | .ok none => .ok none
        | .ok (some hs) => .ok (some (hdr :: hs))

/-- Modelled from the spec (section 4.4): see `get_headers_checked_loop`. -/
def get_headers_checked (bh : Header → Hash) (orc : BtcOracle)
    (start end_height : Nat) (expected_prev : Hash) :
    Except StgError (Option (List Header)) :=
  get_headers_checked_loop bh orc (rangeIncl start end_height) expected_prev

/-- Modelled from the spec (section 4.7 step 2): `get_tip_state` reads the
Bitcoin tip height and the header at it; absent from `src/`, called by
`SpvService::sync_storage`. -/
def get_tip_state (orc : BtcOracle) : Except StgError (Nat × Header) :=
  match get_block_header_by_height orc orc.tip_height with
  | .error e => .error e
  | .ok hdr => .ok (orc.tip_height, hdr)

/-- Modelled from the spec (section 4.7 step 2): `base_state` reads the base
height and the header stored at it; absent from `src/`, called by
`SpvService::sync_storage`. -/
def base_state (st : StorageState) : Except StgError (Nat × Header) :=
  match st.base_height with
  | none => .error (.notFound "base bitcoin height")
  | some b =>
    match get_bitcoin_header st b with
    | .error e => .error e
    | .ok hdr => .ok (b, hdr)

/-- The fork-search loop of `SpvService::sync_storage`
(`src/components/spv_service.rs` lines 266-277), over the heights in the
iteration order of the source (`(base..tip).rev()`): each height where the
storage hash equals the Bitcoin hash overwrites the accumulator.  The source
loop contains no `break`. -/
def fork_scan (bh : Header → Hash) (orc : BtcOracle) (st : StorageState) :
    List Nat → Option (Nat × Hash) → Except StgError (Option (Nat × Hash))
  | [], acc => .ok acc
  | height :: rest, acc =>
    match bitcoin_header_hash bh st height with
    | .error e => .error e
    | .ok stg_hash =>
      match get_block_header_by_height orc height with
      | .error e => .error e
      | .ok btc_header =>
        let btc_hash := bh btc_header
        let acc := if stg_hash = btc_hash then some (height, btc_hash) else acc
        fork_scan bh orc st rest acc

/-- Source `SpvService::sync_storage` (`src/components/spv_service.rs` lines
230-302): returns the updated storage plus the caught-up flag.  When the tip
hashes disagree it searches for the fork point over `(base..tip).rev()`,
rolls back to it and re-downloads; when no height matches it fails without
rolling back. -/
def sync_storage (bh : Header → Hash) (orc : BtcOracle) (st : StorageState) :
    Except StgError (StorageState × Bool) :=
  match tip_state st with
  | .error e => .error e
  | .ok (stg_tip_height, stg_tip_header) =>
    let stg_tip_hash := bh stg_tip_header
    match get_tip_state orc with
    | .error e => .error e
    | .ok (btc_tip_height, _btc_tip_header) =>
      if btc_tip_height ≤ stg_tip_height then .ok (st, true)
      else
        match get_block_header_by_height orc stg_tip_height with
        | .error e => .error e
        | .ok btc_header =>
          if stg_tip_hash = bh btc_header then
            match get_headers_checked bh orc (stg_tip_height + 1) btc_tip_height stg_tip_hash with
            | .error e => .error e
            | .ok none => .ok (st, false)
            | .ok (some headers) =>
              match append_headers bh st headers with
              | .error e => .error e
              | .ok (st, _, _) => .ok (st, true)
          else
            match base_state st with
            | .error e => .error e
            | .ok (stg_base_height, _) =>
              match fork_scan bh orc st ((rangeAsc stg_base_height stg_tip_height).reverse) none with
              | .error e => .error e
              | .ok none =>
                .error (.otherError "reorg failed since the fork point is ahead than local start height")
              | .ok (some (fork_height, fork_hash)) =>
                match rollback_to st (some fork_height) with
                | .error e => .error e
                | .ok st =>
                  match get_headers_checked bh orc (fork_height + 1) btc_tip_height fork_hash with
                  | .error e => .error e
                  | .ok none => .ok (st, false)
                  | .ok (some headers) =>
                    match append_headers bh st headers with
                    | .error e => .error e
                    | .ok (st, _, _) => .ok (st, true)

/-! ### The on-chain SPV ring -/

/-- Source `SpvInfo` (spec section 3): the info cell data. -/
structure SpvInfo where
  tip_client_id : Nat
  deriving DecidableEq, Repr

/-- The output data of a live cell with the SPV type script.  The molecule
layouts of `SpvClient` and `SpvInfo` have different fixed sizes, so a byte
string parses as at most one of the two; the model reflects the outcome of
the two `from_slice` attempts in `parse_raw_spv_cells`. -/
inductive CellData where
  | clientData (c : SpvClient)
  | infoData (i : SpvInfo)
  | unknownData
  deriving DecidableEq, Repr

/-- Source `ckb_sdk::traits::LiveCell`, reduced to what the service reads: the out
point (as an identifier) and the output data. -/
structure LiveCell where
  out_point : Nat
  output_data : CellData
  deriving DecidableEq, Repr

/-- Source `SpvClientCell` (`src/components/ckb_client.rs`). -/
structure SpvClientCell where
  client : SpvClient
  cell : LiveCell
  deriving DecidableEq, Repr

/-- Source `SpvInfoCell` (`src/components/ckb_client.rs`). -/
structure SpvInfoCell where
  info : SpvInfo
  cell : LiveCell
  clients_count : Nat
  deriving DecidableEq, Repr

/-- Source `SpvInstance` (`src/components/ckb_client.rs`): the info cell plus the
`HashMap<u8, SpvClientCell>`, modelled as an association list in which every
insert replaces the previous binding of the same id. -/
structure SpvInstance where
  info : SpvInfoCell
  clients : List (Nat × SpvClientCell)
  deriving DecidableEq, Repr

/-- Source `HashMap::insert`: binds `k` to `v`, dropping any previous binding. -/
def hashmap_insert (m : List (Nat × SpvClientCell)) (k : Nat) (v : SpvClientCell) :
    List (Nat × SpvClientCell) :=
  (k, v) :: m.filter (fun p => p.1 ≠ k)

/-- Source `SpvInfoCell::prev_tip_client_id` (`src/components/ckb_client.rs` lines
46-53): step one slot backwards around the ring. -/
def SpvInfoCell.prev_tip_client_id (c : SpvInfoCell) : Nat :=
  if c.info.tip_client_id = 0 then c.clients_count - 1 else c.info.tip_client_id - 1

/-- Source `SpvInfoCell::next_tip_client_id` (`src/components/ckb_client.rs` lines
55-62): step one slot forwards around the ring. -/
def SpvInfoCell.next_tip_client_id (c : SpvInfoCell) : Nat :=
  let next := c.info.tip_client_id + 1
  if next < c.clients_count then next else 0

/-- The loop of `SpvInstance::find_best_spv_client_not_greater_than_height`
(`src/components/ckb_client.rs` lines 195-216), with the `for _ in
0..clients.len()` bound made an explicit fuel argument. -/
def find_best_loop (clients : List (Nat × SpvClientCell)) (height : Nat) :
    Nat → SpvInfoCell → Except StgError SpvClientCell
  | 0, _info => .error (.otherError "all SPV clients have better heights than server has")
  | fuel + 1, info =>
    match clients.lookup info.info.tip_client_id with
    | none => .error (.otherError "the SPV client is not found")
    | some cell =>
      if cell.client.headers_mmr_root.max_height ≤ height then .ok cell
      else
        find_best_loop clients height fuel
          { info with info := { tip_client_id := info.prev_tip_client_id } }

/-- Source `SpvInstance::find_best_spv_client_not_greater_than_height`
(`src/components/ckb_client.rs` lines 195-216). -/
def SpvInstance.find_best_spv_client_not_greater_than_height (ins : SpvInstance)
    (height : Nat) : Except StgError SpvClientCell :=
  find_best_loop ins.clients height ins.clients.length ins.info

/-- Source `SpvReorgInput` (`src/components/spv_service.rs`). -/
structure SpvReorgInput where
  info : SpvInfoCell
  curr : SpvClientCell
  stale : List SpvClientCell
  deriving DecidableEq, Repr

/-- The loop of `SpvService::prepare_reorg_input`
(`src/components/spv_service.rs` lines 159-188).  The storage side
`generate_headers_root` is not under `src/`; it is passed as the parameter
`stg_root`, mapping a height to the storage-generated MMR root (the packed
byte comparison of the source becomes equality of digests, serialisation
being injective).  The `for _ in 0..clients.len()` bound is the fuel. -/
def reorg_loop (stg_root : Nat → Except StgError HeaderDigest)
    (clients : List (Nat × SpvClientCell)) :
    Nat → SpvInfoCell → List SpvClientCell → Except StgError SpvReorgInput
  | 0, _info, _stale =>
    .error (.otherError "failed to reorg since no common parent between SPV instance and storage")
  | fuel + 1, info, stale =>
    match clients.lookup info.info.tip_client_id with
    | none => .error (.otherError "the SPV client is not found")
    | some cell =>
      let spv_header_root := cell.client.headers_mmr_root
      match stg_root spv_header_root.max_height with
      | .error e => .error e
      | .ok stg_header_root =>
        if stg_header_root = spv_header_root then
          .ok { info := info, curr := cell, stale := stale }
        else
          reorg_loop stg_root clients fuel
            { info with info := { tip_client_id := info.prev_tip_client_id } }
            (stale ++ [cell])

/-- Source `SpvService::prepare_reorg_input` (`src/components/spv_service.rs` lines
156-191): walks backwards from the tip client collecting the clients whose
MMR root disagrees with storage, until the first agreeing client (`curr`). -/
def prepare_reorg_input (stg_root : Nat → Except StgError HeaderDigest)
    (ins : SpvInstance) : Except StgError SpvReorgInput :=
  reorg_loop stg_root ins.clients ins.clients.length ins.info []

/-- The parsing loop of `parse_raw_spv_cells`
(`src/components/ckb_client.rs` lines 234-257). -/
def parse_cells_loop (clients_count : Nat) :
    List LiveCell → Option SpvInfoCell → List (Nat × SpvClientCell) →
    Except StgError (Option SpvInfoCell × List (Nat × SpvClientCell))
  | [], info_opt, clients => .ok (info_opt, clients)
  | cell :: rest, info_opt, clients =>
    match cell.output_data with
    | .clientData c =>
      parse_cells_loop clients_count rest info_opt
        (hashmap_insert clients c.id { client := c, cell := cell })
    | .infoData i =>
      if info_opt.isSome then .error (.otherError "the SPV info cell should be unique")
      else
        parse_cells_loop clients_count rest
          (some { info := i, cell := cell, clients_count := clients_count }) clients
    | .unknownData => .error (.otherError "the data of the SPV cell is unexpected")

/-- Source `parse_raw_spv_cells` (`src/components/ckb_client.rs` lines 230-268):
partitions the cells into the client map and the unique info cell;
`clients_count` is taken as `cells.len() - 1`. -/
def parse_raw_spv_cells (cells : List LiveCell) : Except StgError SpvInstance :=
  let clients_count := cells.length - 1
  match parse_cells_loop clients_count cells none [] with
  | .error e => .error e
  | .ok (none, _) => .error (.otherError "the SPV info cell is missing")
  | .ok (some spv_info, spv_clients) => .ok { info := spv_info, clients := spv_clients }

/-- Source `CkbRpcClientExtension::find_raw_spv_cells`
(`src/components/ckb_client.rs` lines 148-178): the indexer query is
modelled by passing the list of live cells carrying the SPV type script;
the only check performed is that the count equals `clients_count + 1`,
with `clients_count` taken from the type script args. -/
def find_raw_spv_cells (args_clients_count : Nat) (chain_cells : List LiveCell) :
    Except StgError (List LiveCell) :=
  if chain_cells.length = args_clients_count + 1 then .ok chain_cells
  else .error (.otherError "the count of SPV cells is incorrect")

/-- Source `CkbRpcClientExtension::find_spv_cells` (`src/components/ckb_client.rs`
lines 88-91): fetch then parse. -/
def find_spv_cells (args_clients_count : Nat) (chain_cells : List LiveCell) :
    Except StgError SpvInstance :=
  match find_raw_spv_cells args_clients_count chain_cells with
  | .error e => .error e
  | .ok cells => parse_raw_spv_cells cells

/-! ### The proof RPC -/

/-- Source `ApiErrorCode` (`src/components/api_service/error.rs` lines 5-16). -/
inductive ApiErrorCode where
  | StorageTxTooNew
  | StorageTxUnconfirmed
  | StorageHeaderMissing
  | StorageHeaderUnmatched
  | OnchainTxUnconfirmed
  | OnchainReorgRequired
  deriving DecidableEq, Repr

/-- The numeric JSON-RPC `ServerError` code of each variant, following the
`#[repr(i64)]` discriminants of `src/components/api_service/error.rs`
(`StorageTxUnconfirmed` and `StorageHeaderUnmatched` take the successor of
the explicitly assigned predecessor). -/
def ApiErrorCode.code : ApiErrorCode → Nat
  | .StorageTxTooNew => 23101
  | .StorageTxUnconfirmed => 23102
  | .StorageHeaderMissing => 23301
  | .StorageHeaderUnmatched => 23302
  | .OnchainTxUnconfirmed => 25101
  | .OnchainReorgRequired => 25901

/-- The storage-validation stage of `SpvRpcImpl::get_tx_proof`
(`src/components/api_service/mod.rs` lines 226-256), with the target height
and block hash already extracted from the remote tx-out proof and the
storage tip height already read: the four checks in source order, returning
the verified storage header hash on success. -/
def validate_tx_proof_storage (bh : Header → Hash) (st : StorageState)
    (stg_tip_height target_height confirmations : Nat) (target_hash : Hash) :
    Except ApiErrorCode Hash :=
  if stg_tip_height < target_height then .error .StorageTxTooNew
  else if stg_tip_height < target_height + confirmations then .error .StorageTxUnconfirmed
  else
    match bitcoin_header_hash bh st target_height with
    | .error _ => .error .StorageHeaderMissing
    | .ok stg_target_hash =>
      if target_hash ≠ stg_target_hash then .error .StorageHeaderUnmatched
      else .ok stg_target_hash

/-! ### Spec-side descriptions and helpers

The definitions below follow the wording of the specification (not the
source); they exist to be compared with the source-side definitions above. -/

/-- Returns `true` iff an `Except` value is `ok`. -/
def isOkE {ε α : Type} : Except ε α → Bool
  | .ok _ => true
  | .error _ => false

/-- Spec-side: the input headers form a hash chain whose first element links
to `h` (spec section 4.3: each header's `prev` equals the hash of its
predecessor, the stored tip for the first element). -/
def chain_linked (bh : Header → Hash) : Hash → List Header → Bool
  | _h, [] => true
  | h, x :: xs => (h == x.prev_blockhash) && chain_linked bh (bh x) xs

/-- Spec-side: one backwards step around the ring of `count` clients. -/
def prevId (count i : Nat) : Nat :=
  if i = 0 then count - 1 else i - 1

/-- Spec-side: the ids visited when stepping backwards around the ring
`fuel` times starting from `tip`. -/
def visit_ids (count : Nat) : Nat → Nat → List Nat
  | _tip, 0 => []
  | tip, fuel + 1 => tip :: visit_ids count (prevId count tip) fuel

/-- Spec-side description of `find_best_spv_client_not_greater_than_height`
(spec section 4.6): walk the given id sequence and return the first client
whose `headers_mmr_root.max_height` is at most `height`. -/
def find_first_good (clients : List (Nat × SpvClientCell)) (height : Nat) :
    List Nat → Except StgError SpvClientCell
  | [] => .error (.otherError "all SPV clients have better heights than server has")
  | i :: rest =>
    match clients.lookup i with
    | none => .error (.otherError "the SPV client is not found")
    | some cell =>
      if cell.client.headers_mmr_root.max_height ≤ height then .ok cell
      else find_first_good clients height rest

/-! ### Concrete inputs used by the witnesses and counterexamples -/

/-- A concrete stand-in for the Bitcoin block hash used on concrete runs:
headers below are built so that their `nonce` identifies them. -/
def exampleHash : Header → Hash := fun h => h.nonce

/-- A header determined by its previous-hash link and its nonce. -/
def mkHeader (prev nonce : Nat) : Header :=
  { version := 0, prev_blockhash := prev, merkle_root := 0, time := 0, bits := 0, nonce := nonce }

/-- A concrete instantiation of the external difficulty functions, chosen so
that the retarget composition is observable on concrete runs. -/
def exampleFns : RetargetFns :=
  { bits_to_target := fun b => b * 2
    calculate_next_target := fun t s e => t + s + e
    to_compact_lossy := fun t => t + 1 }

/-- Storage for the fork-search run: base 0, tip 3, headers with hashes
(nonces) 10, 11, 12, 23. -/
def c1Storage : StorageState :=
  { base_height := some 0
    tip_height := some 3
    headers := fun h =>
      if h = 0 then some (mkHeader 0 10)
      else if h = 1 then some (mkHeader 10 11)
      else if h = 2 then some (mkHeader 11 12)
      else if h = 3 then some (mkHeader 12 23)
      else none
    header_mmr := fun _ => none
    spv_contract_type_script := none
    spv_contract_cell_dep := none
    lock_contract_cell_dep := none }

/-- Bitcoin source for the fork-search run: agrees with `c1Storage` at
heights 0, 1 and 2 (hashes 10, 11, 12) and disagrees at the storage tip 3;
the link of its header 2 is broken so that the re-download stops early and
the rolled-back state becomes observable. -/
def c1Oracle : BtcOracle :=
  { tip_height := 4
    header_at := fun h =>
      if h = 0 then some (mkHeader 0 10)
      else if h = 1 then some (mkHeader 10 11)
      else if h = 2 then some (mkHeader 999 12)
      else if h = 3 then some (mkHeader 12 13)
      else if h = 4 then some (mkHeader 13 14)
      else none }

/-- Bitcoin source for the unchecked-download run: the header at height 1
does not link to the header at height 0. -/
def c7Oracle : BtcOracle :=
  { tip_height := 1
    header_at := fun h =>
      if h = 0 then some (mkHeader 50 60)
      else if h = 1 then some (mkHeader 77 61)
      else none }

/-- A client cell with the given id whose MMR root covers up to `maxh`. -/
def mkClientCell (id maxh : Nat) : SpvClientCell :=
  { client :=
      { id := id
        tip_block_hash := 0
        headers_mmr_root := { min_height := 0, max_height := maxh, chain_work := 0, header_hash := maxh }
        target_adjust_info := { start_time := 0, bits := 0 } }
    cell := { out_point := id, output_data := .unknownData } }

/-- A ring of three clients covering heights 2030, 2040 and 2050, with the
tip at id 2 (height 2050). -/
def c3Instance : SpvInstance :=
  { info :=
      { info := { tip_client_id := 2 }
        cell := { out_point := 100, output_data := .unknownData }
        clients_count := 3 }
    clients := [(0, mkClientCell 0 2030), (1, mkClientCell 1 2040), (2, mkClientCell 2 2050)] }

/-- A storage root generator that disagrees with the ring of `c3Instance`
exactly at height 2050 (the tip client) and agrees everywhere else. -/
def c3Root : Nat → Except StgError HeaderDigest := fun h =>
  if h = 2050 then .ok { min_height := 0, max_height := 2050, chain_work := 1, header_hash := 999 }
  else .ok { min_height := 0, max_height := h, chain_work := 0, header_hash := h }

/-- A live cell carrying `SpvClient` data with client id 0. -/
def c9ClientCell (op : Nat) : LiveCell :=
  { out_point := op
    output_data := .clientData
      { id := 0
        tip_block_hash := 0
        headers_mmr_root := { min_height := 0, max_height := 0, chain_work := 0, header_hash := 0 }
        target_adjust_info := { start_time := 0, bits := 0 } } }

/-- Three live cells for `clients_count = 2`: two client cells sharing id 0
and an info cell whose `tip_client_id` is 5. -/
def c9Cells : List LiveCell :=
  [c9ClientCell 1, c9ClientCell 2,
   { out_point := 100, output_data := .infoData { tip_client_id := 5 } }]

/-- Storage for the clamping run: base 0, tip 1, both headers present, the
MMR column holding leaf digests for the two stored headers. -/
def c4Storage : StorageState :=
  { base_height := some 0
    tip_height := some 1
    headers := fun h =>
      if h = 0 then some { version := 0, prev_blockhash := 0, merkle_root := 0, time := 100, bits := 200, nonce := 1 }
      else if h = 1 then some { version := 0, prev_blockhash := 1, merkle_root := 0, time := 110, bits := 210, nonce := 2 }
      else none
    header_mmr := fun p => if p < 3 then some { min_height := p, max_height := p, chain_work := 0, header_hash := p } else none
    spv_contract_type_script := none
    spv_contract_cell_dep := none
    lock_contract_cell_dep := none }

/-- Storage for the append run: base 0, tip 0, one stored header of hash
(nonce) 5. -/
def c2Storage : StorageState :=
  { base_height := some 0
    tip_height := some 0
    headers := fun h => if h = 0 then some (mkHeader 0 5) else none
    header_mmr := fun _ => none
    spv_contract_type_script := none
    spv_contract_cell_dep := none
    lock_contract_cell_dep := none }

/-! ## Theorems -/

/-- C10: for every height `h`, `rollback_to (some h)` writes only the
tip-height singleton: the headers column family, the header-mmr column
family, the base height and the SPV contract singletons are all unchanged
(entries above the new tip are in particular not deleted), and no range
validation is performed on `h`. -/
theorem rollback_to_writes_only_tip :
    ∀ (st : StorageState) (h : Nat),
      ∃ st2, rollback_to st (some h) = .ok st2 ∧
        st2.tip_height = some h ∧
        st2.headers = st.headers ∧
        st2.header_mmr = st.header_mmr ∧
        st2.base_height = st.base_height ∧
        st2.spv_contract_type_script = st.spv_contract_type_script ∧
        st2.spv_contract_cell_dep = st.spv_contract_cell_dep ∧
        st2.lock_contract_cell_dep = st.lock_contract_cell_dep :=
  fun st h => ⟨put_tip_bitcoin_height st h, rfl, rfl, rfl, rfl, rfl, rfl, rfl, rfl⟩

/-- C6: the storage-validation stage of `getTxProof` checks in this order and
with these `ServerError` codes: `StorageTxTooNew` (23101) iff the storage tip
is below the target height; otherwise `StorageTxUnconfirmed` (23102) iff the
storage tip is below target height plus confirmations; otherwise
`StorageHeaderMissing` (23301) iff storage has no header at the target
height; otherwise `StorageHeaderUnmatched` (23302) iff the stored header hash
differs from the block hash of the remote tx-out proof. -/
theorem get_tx_proof_storage_validation :
    ∀ (bh : Header → Hash) (st : StorageState) (stg_tip target conf : Nat) (thash : Hash),
      ((validate_tx_proof_storage bh st stg_tip target conf thash
          = .error .StorageTxTooNew) ↔ stg_tip < target) ∧
      ((validate_tx_proof_storage bh st stg_tip target conf thash
          = .error .StorageTxUnconfirmed) ↔ (target ≤ stg_tip ∧ stg_tip < target + conf)) ∧
      ((validate_tx_proof_storage bh st stg_tip target conf thash
          = .error .StorageHeaderMissing)
        ↔ (target + conf ≤ stg_tip ∧ st.headers target = none)) ∧
      ((validate_tx_proof_storage bh st stg_tip target conf thash
          = .error .StorageHeaderUnmatched)
        ↔ (target + conf ≤ stg_tip ∧ ∃ hdr, st.headers target = some hdr ∧ thash ≠ bh hdr)) ∧
      ApiErrorCode.code .StorageTxTooNew = 23101 ∧
      ApiErrorCode.code .StorageTxUnconfirmed = 23102 ∧
      ApiErrorCode.code .StorageHeaderMissing = 23301 ∧
      ApiErrorCode.code .StorageHeaderUnmatched = 23302 := by
  intro bh st stg_tip target conf thash
  refine ⟨?_, ?_, ?_, ?_, rfl, rfl, rfl, rfl⟩ <;>
  · unfold validate_tx_proof_storage bitcoin_header_hash get_bitcoin_header
    rcases hh : st.headers target with _ | hdr <;>
      by_cases h1 : stg_tip < target <;>
      by_cases h2 : stg_tip < target + conf <;>
      first
        | (simp [h1, h2, hh] <;> omega)
        | (by_cases h3 : thash = bh hdr <;> simp [h1, h2, hh, h3] <;> omega)

/-- C1: on a concrete run where the Bitcoin source disagrees with the
storage tip but agrees at heights 0, 1 and 2 (so that the greatest matching
height is 2), the fork-search loop of `sync_storage` — which has no `break` —
keeps overwriting the fork point and rolls the storage back to height 0, the
lowest matching height, instead of height 2. -/
theorem sync_storage_rolls_back_to_lowest_match :
    (∃ hdr2, c1Oracle.header_at 2 = some hdr2 ∧
       bitcoin_header_hash exampleHash c1Storage 2 = .ok (exampleHash hdr2)) ∧
    ∃ st2, sync_storage exampleHash c1Oracle c1Storage = .ok (st2, false) ∧
      st2.tip_height = some 0 := by
  refine ⟨⟨mkHeader 999 12, rfl, rfl⟩, ⟨_, rfl, rfl⟩⟩

/-- C7: the two-argument `BitcoinClient::get_headers` of
`src/components/bitcoin_client.rs` downloads the range without any
`prev_blockhash` verification: on a source whose header at height 1 does not
link to the header at height 0 it still returns the full list instead of
`None`. -/
theorem get_headers_no_link_check :
    get_headers c7Oracle 0 1 = .ok [mkHeader 50 60, mkHeader 77 61] ∧
    (mkHeader 77 61).prev_blockhash ≠ exampleHash (mkHeader 50 60) := by
  exact ⟨rfl, by decide⟩

/-- C3: counterexample — on a ring where exactly the tip client is stale
(its root disagrees with storage, the previous client's root agrees),
`prepare_reorg_input` returns a `Reorg` input whose `stale` list has exactly
one element, not at least two. -/
theorem prepare_reorg_one_stale_counterexample :
    ∃ out, prepare_reorg_input c3Root c3Instance = .ok out ∧ out.stale.length = 1 := by
  exact ⟨_, rfl, rfl⟩

/-- C9: counterexample — `find_spv_cells` accepts three cells for
`clients_count = 2` in which two client cells share id 0 and the info cell
carries `tip_client_id = 5`: the returned instance has a client map with one
entry instead of `clients_count`, a `clients_count` of 2 (below 3) and a
`tip_client_id` outside the ring, with no error. -/
theorem find_spv_cells_accepts_invalid :
    ∃ ins, find_spv_cells 2 c9Cells = .ok ins ∧
      ins.clients.length = 1 ∧
      ins.info.clients_count = 2 ∧
      ¬ ins.clients.length = ins.info.clients_count ∧
      ins.info.info.tip_client_id = 5 ∧
      ¬ 3 ≤ ins.info.clients_count := by
  refine ⟨_, rfl, rfl, rfl, by decide, rfl, by decide⟩

/-- Source `store_append` only writes the header-mmr column family. -/
theorem store_append_preserves :
    ∀ (es : List HeaderDigest) (st : StorageState) (p : Nat),
      (store_append st p es).headers = st.headers ∧
      (store_append st p es).tip_height = st.tip_height ∧
      (store_append st p es).base_height = st.base_height := by
  intro es
  induction es with
  | nil => intro st p; exact ⟨rfl, rfl, rfl⟩
  | cons e es ih =>
    intro st p
    simpa [store_append, put_bitcoin_header_digest] using
      ih (put_bitcoin_header_digest st p e) (p + 1)

/-- Success of the `append_headers` loop on a hash-chained input: the loop
writes each header at its height, advances the height by the input length,
and reports the last input header; other columns are untouched. -/
theorem append_loop_ok (bh : Header → Hash) (base : Nat) :
    ∀ (vec : List Header) (st : StorageState) (mmr : ClientRootMMR) (t : Nat)
      (hdr : Header) (pos : List Nat),
      chain_linked bh (bh hdr) vec = true →
      ∃ st2 mmr2 pos2,
        append_loop bh base vec st mmr t hdr (bh hdr) pos
          = .ok (st2, mmr2, t + vec.length, vec.getLastD hdr, pos2) ∧
        (∀ i, i < vec.length → st2.headers (t + 1 + i) = vec[i]?) ∧
        (∀ y, y ≤ t → st2.headers y = st.headers y) ∧
        st2.tip_height = st.tip_height ∧ st2.base_height = st.base_height := by
  intro vec
  induction vec with
  | nil =>
    intro st mmr t hdr pos _h
    exact ⟨st, mmr, pos, by simp [append_loop], by intro i hi; simp at hi,
      fun y _ => rfl, rfl, rfl⟩
  | cons x xs ih =>
    intro st mmr t hdr pos h
    rw [chain_linked, Bool.and_eq_true] at h
    have hx : bh hdr = x.prev_blockhash := by simpa using h.1
    obtain ⟨st2, mmr2, pos2, heq, hin, hfr, htip, hbase⟩ :=
      ih (put_bitcoin_header st (t + 1) x)
        (mmr.push (HeaderDigest.new_leaf (t + 1) (bh x))) (t + 1) x
        (pos ++ [leaf_index_to_pos (t + 1 - base)]) h.2
    refine ⟨st2, mmr2, pos2, ?_, ?_, ?_, htip.trans rfl, hbase.trans rfl⟩
    · simp only [append_loop]
      rw [if_neg (by simp [hx])]
      rw [heq]
      simp only [List.getLastD_cons, List.length_cons, Except.ok.injEq, Prod.mk.injEq,
        true_and, and_true]
      omega
    · intro i hi
      cases i with
      | zero =>
        have hy := hfr (t + 1) (le_refl _)
        have e0 : t + 1 + 0 = t + 1 := by omega
        rw [e0, hy]
        simp [put_bitcoin_header]
      | succ j =>
        have hj := hin j (by simpa using hi)
        have e1 : t + 1 + (j + 1) = t + 1 + 1 + j := by omega
        rw [e1, hj]
        simp
    · intro y hy
      rw [hfr y (by omega)]
      simp [put_bitcoin_header]
      intro hcontra
      omega

/-- Failure of the `append_headers` loop on an input that breaks the hash
chain. -/
theorem append_loop_err (bh : Header → Hash) (base : Nat) :
    ∀ (vec : List Header) (st : StorageState) (mmr : ClientRootMMR) (t : Nat)
      (hdr : Header) (pos : List Nat),
      chain_linked bh (bh hdr) vec = false →
      ∃ e, append_loop bh base vec st mmr t hdr (bh hdr) pos = .error e := by
  intro vec
  induction vec with
  | nil => intro st mmr t hdr pos h; simp [chain_linked] at h
  | cons x xs ih =>
    intro st mmr t hdr pos h
    by_cases hx : bh hdr = x.prev_blockhash
    · have h2 : chain_linked bh (bh x) xs = false := by
        rw [chain_linked] at h
        simpa [hx] using h
      obtain ⟨e, he⟩ :=
        ih (put_bitcoin_header st (t + 1) x)
          (mmr.push (HeaderDigest.new_leaf (t + 1) (bh x))) (t + 1) x
          (pos ++ [leaf_index_to_pos (t + 1 - base)]) h2
      refine ⟨e, ?_⟩
      simp only [append_loop]
      rw [if_neg (by simp [hx])]
      exact he
    · refine ⟨.dataError "input headers are uncontinuous", ?_⟩
      simp only [append_loop]
      rw [if_pos hx]

/-- C2: `append_headers` fails on an empty input; it fails whenever some
input header's `prev_blockhash` differs from the block hash of its
predecessor (the stored tip header for the first element); and on a
hash-chained input it stores every header at its height, advances the tip by
the input length, and returns the new `(tip_height, tip_header)`, which are
the height and the value of the last input header. -/
theorem append_headers_spec :
    ∀ (bh : Header → Hash) (st : StorageState),
      append_headers bh st [] = .error (.notFound "input headers") ∧
      ∀ (b t : Nat) (tipHdr : Header) (vec : List Header),
        st.base_height = some b → st.tip_height = some t → b ≤ t →
        st.headers t = some tipHdr →
        (chain_linked bh (bh tipHdr) vec = false →
           ∃ e, append_headers bh st vec = .error e) ∧
        (vec ≠ [] → chain_linked bh (bh tipHdr) vec = true →
           ∃ st2, append_headers bh st vec = .ok (st2, t + vec.length, vec.getLastD tipHdr) ∧
             st2.tip_height = some (t + vec.length) ∧
             ∀ i, i < vec.length → st2.headers (t + 1 + i) = vec[i]?) := by
  intro bh st
  refine ⟨rfl, ?_⟩
  intro b t tipHdr vec hb ht hbt hhdr
  constructor
  · intro hchain
    have hne2 : vec ≠ [] := by
      intro hv; rw [hv] at hchain; simp [chain_linked] at hchain
    have hie : vec.isEmpty = false := by
      cases vec with
      | nil => exact absurd rfl hne2
      | cons _ _ => rfl
    obtain ⟨e, he⟩ := append_loop_err bh b vec st
      (ClientRootMMR.new (leaf_index_to_mmr_size (t - b))) t tipHdr [] hchain
    refine ⟨e, ?_⟩
    have hnl : ¬ t < b := by omega
    unfold append_headers
    simp only [hie, Bool.false_eq_true, if_false, tip_state, get_tip_bitcoin_height,
      get_bitcoin_header, ht, hhdr, chain_root_mmr, hb, hnl]
    rw [he]
  · intro hne hchain
    obtain ⟨st2, mmr2, pos2, heq, hin, hfr, htip, hbase⟩ := append_loop_ok bh b vec st
      (ClientRootMMR.new (leaf_index_to_mmr_size (t - b))) t tipHdr [] hchain
    have hie : vec.isEmpty = false := by
      cases vec with
      | nil => exact absurd rfl hne
      | cons _ _ => rfl
    refine ⟨put_tip_bitcoin_height (mmr2.commit st2) (t + vec.length), ?_, rfl, ?_⟩
    · have hnl : ¬ t < b := by omega
      unfold append_headers
      simp only [hie, Bool.false_eq_true, if_false, tip_state, get_tip_bitcoin_height,
        get_bitcoin_header, ht, hhdr, chain_root_mmr, hb, hnl]
      rw [heq]
    · intro i hi
      have hc := (store_append_preserves mmr2.pushed st2 mmr2.init_size).1
      calc (put_tip_bitcoin_height (mmr2.commit st2) (t + vec.length)).headers (t + 1 + i)
          = (mmr2.commit st2).headers (t + 1 + i) := rfl
        _ = st2.headers (t + 1 + i) := by rw [show mmr2.commit st2 = store_append st2 mmr2.init_size mmr2.pushed from rfl, hc]
        _ = vec[i]? := hin i hi

/-- Witness for C2: a concrete hash-chained append of two headers onto a
one-header store. -/
theorem append_headers_spec_witness :
    ∃ st2, append_headers exampleHash c2Storage [mkHeader 5 6, mkHeader 6 7]
        = .ok (st2, 0 + [mkHeader 5 6, mkHeader 6 7].length,
               [mkHeader 5 6, mkHeader 6 7].getLastD (mkHeader 0 5)) ∧
      st2.tip_height = some (0 + [mkHeader 5 6, mkHeader 6 7].length) ∧
      ∀ i, i < [mkHeader 5 6, mkHeader 6 7].length →
        st2.headers (0 + 1 + i) = [mkHeader 5 6, mkHeader 6 7][i]? := by
  exact ((append_headers_spec exampleHash c2Storage).2 0 0 (mkHeader 0 5)
    [mkHeader 5 6, mkHeader 6 7] rfl rfl (by decide) rfl).2 (by decide) (by decide)

/-- Reading a stored header succeeds exactly on the stored value. -/
theorem get_bitcoin_header_ok_iff (st : StorageState) (h : Nat) (hdr : Header) :
    get_bitcoin_header st h = .ok hdr ↔ st.headers h = some hdr := by
  unfold get_bitcoin_header
  rcases st.headers h with _ | x <;> simp

/-- C4: `generate_spv_client_and_spv_update` computes its working tip as
`min(storage_tip, prev_height + limit)`, and whenever `storage_tip ≤
prev_height` it fails with an error: it never returns a successful
`(SpvClient, SpvUpdate)` pair in that case. -/
theorem generate_spv_client_clamps_and_fails :
    (∀ stg_tip prev_height limit : Nat,
       workingTip stg_tip prev_height limit = min stg_tip (prev_height + limit)) ∧
    (∀ (bh : Header → Hash) (rf : RetargetFns) (st : StorageState)
       (prev_height limit t : Nat),
       st.tip_height = some t → t ≤ prev_height →
       isOkE (generate_spv_client_and_spv_update bh rf st prev_height limit) = false) := by
  constructor
  · intro s p l
    simp only [workingTip, Nat.min_def]
    split_ifs <;> omega
  · intro bh rf st p l t ht hle
    unfold generate_spv_client_and_spv_update
    simp only [get_tip_bitcoin_height, ht]
    rcases hg : get_bitcoin_header st (workingTip t p l) with e | tipH
    · simp [hg, isOkE]
    · rcases hc : chain_root_mmr st (workingTip t p l) with e | bm
      · simp [hg, hc, isOkE]
      · obtain ⟨bb, mm⟩ := bm
        rcases hr : mm.get_root st with e | root
        · simp [hg, hc, hr, isOkE]
        · have hpos : rangeAsc p (workingTip t p l) = [] := by
            unfold rangeAsc workingTip
            rw [if_neg (show ¬ t > p + l by omega)]
            rw [show t - p = 0 by omega]
            rfl
          simp [hg, hc, hr, hpos, ClientRootMMR.gen_proof, isOkE]

/-- Witness for C4: with storage tip 1 and `prev_height = 5` the operation
fails. -/
theorem generate_spv_client_clamps_and_fails_witness :
    isOkE (generate_spv_client_and_spv_update exampleHash exampleFns c4Storage 5 3) = false :=
  generate_spv_client_clamps_and_fails.2 exampleHash exampleFns c4Storage 5 3 1 rfl
    (by omega)

/-- C5: whenever `generate_spv_client_and_spv_update` succeeds with working
tip `T`, the returned client's `target_adjust_info` equals
`encode(T_header.time, T_header.bits)` when `(T+1) % 2016 = 1`;
`encode(start_header.time, next_bits)` when `(T+1) % 2016 = 0`, where
`next_bits` is the compact conversion of the retarget computed from the tip
target, the window start time and the tip time; and
`encode(start_header.time, start_header.bits)` otherwise, where
`start_header` is the stored header at `(T/2016)*2016`. -/
theorem generate_spv_client_target_adjust_info :
    ∀ (bh : Header → Hash) (rf : RetargetFns) (st : StorageState)
      (prev_height limit t : Nat) (c : SpvClient) (u : SpvUpdate),
      st.tip_height = some t →
      generate_spv_client_and_spv_update bh rf st prev_height limit = .ok (c, u) →
      ∃ tipH, st.headers (workingTip t prev_height limit) = some tipH ∧
        (((workingTip t prev_height limit + 1) % DIFFCHANGE_INTERVAL = 1 ∧
            c.target_adjust_info = TargetAdjustInfo.encode tipH.time tipH.bits) ∨
         ((workingTip t prev_height limit + 1) % DIFFCHANGE_INTERVAL ≠ 1 ∧
           ∃ startH,
             st.headers
                 (workingTip t prev_height limit / DIFFCHANGE_INTERVAL * DIFFCHANGE_INTERVAL)
               = some startH ∧
             (((workingTip t prev_height limit + 1) % DIFFCHANGE_INTERVAL = 0 ∧
                 c.target_adjust_info = TargetAdjustInfo.encode startH.time
                   (rf.to_compact_lossy
                     (rf.calculate_next_target (rf.bits_to_target tipH.bits)
                       startH.time tipH.time))) ∨
              ((workingTip t prev_height limit + 1) % DIFFCHANGE_INTERVAL ≠ 0 ∧
                c.target_adjust_info
                  = TargetAdjustInfo.encode startH.time startH.bits)))) := by
  intro bh rf st p l t c u ht h
  unfold generate_spv_client_and_spv_update at h
  simp only [get_tip_bitcoin_height, ht] at h
  rcases hg : get_bitcoin_header st (workingTip t p l) with e | tipH
  · simp only [hg] at h; simp at h
  · simp only [hg] at h
    refine ⟨tipH, (get_bitcoin_header_ok_iff st _ tipH).mp hg, ?_⟩
    rcases hc : chain_root_mmr st (workingTip t p l) with e | ⟨bb, mm⟩
    · simp only [hc] at h; simp at h
    · simp only [hc] at h
      rcases hr : mm.get_root st with e | root
      · simp only [hr] at h; simp at h
      · simp only [hr] at h
        rcases hp : mm.gen_proof st ((rangeAsc p (workingTip t p l)).map
            fun height => leaf_index_to_pos (height + 1 - bb)) with e | proof
        · simp only [hp] at h; simp at h
        · simp only [hp] at h
          rcases hm : (rangeIncl (p + 1) (workingTip t p l)).mapM (get_bitcoin_header st)
            with e | headers
          · simp only [hm] at h; simp at h
          · simp only [hm] at h
            by_cases hf1 : (workingTip t p l + 1) % DIFFCHANGE_INTERVAL = 1
            · simp only [if_pos hf1] at h
              simp only [Except.ok.injEq, Prod.mk.injEq] at h
              obtain ⟨h1, -⟩ := h
              exact Or.inl ⟨hf1, by rw [← h1]⟩
            · simp only [if_neg hf1] at h
              rcases hs : get_bitcoin_header st
                  (workingTip t p l / DIFFCHANGE_INTERVAL * DIFFCHANGE_INTERVAL)
                with e | startH
              · simp only [hs] at h; simp at h
              · simp only [hs] at h
                refine Or.inr ⟨hf1, startH, (get_bitcoin_header_ok_iff st _ startH).mp hs, ?_⟩
                by_cases hf0 : (workingTip t p l + 1) % DIFFCHANGE_INTERVAL = 0
                · simp only [if_pos hf0] at h
                  simp only [Except.ok.injEq, Prod.mk.injEq] at h
                  obtain ⟨h1, -⟩ := h
                  exact Or.inl ⟨hf0, by rw [← h1]⟩
                · simp only [if_neg hf0] at h
                  simp only [Except.ok.injEq, Prod.mk.injEq] at h
                  obtain ⟨h1, -⟩ := h
                  exact Or.inr ⟨hf0, by rw [← h1]⟩

/-- Witness for C5: a concrete successful run with working tip 1, in the
middle of a difficulty window (`(1+1) % 2016 = 2`), whose target adjust info
is `encode(start_header.time, start_header.bits) = encode(100, 200)`. -/
theorem generate_spv_client_target_adjust_info_witness :
    ∃ c u, generate_spv_client_and_spv_update exampleHash exampleFns c4Storage 0 10
        = .ok (c, u) ∧
      ∃ tipH, c4Storage.headers (workingTip 1 0 10) = some tipH ∧
        (((workingTip 1 0 10 + 1) % DIFFCHANGE_INTERVAL = 1 ∧
            c.target_adjust_info = TargetAdjustInfo.encode tipH.time tipH.bits) ∨
         ((workingTip 1 0 10 + 1) % DIFFCHANGE_INTERVAL ≠ 1 ∧
           ∃ startH,
             c4Storage.headers
                 (workingTip 1 0 10 / DIFFCHANGE_INTERVAL * DIFFCHANGE_INTERVAL)
               = some startH ∧
             (((workingTip 1 0 10 + 1) % DIFFCHANGE_INTERVAL = 0 ∧
                 c.target_adjust_info = TargetAdjustInfo.encode startH.time
                   (exampleFns.to_compact_lossy
                     (exampleFns.calculate_next_target (exampleFns.bits_to_target tipH.bits)
                       startH.time tipH.time))) ∨
              ((workingTip 1 0 10 + 1) % DIFFCHANGE_INTERVAL ≠ 0 ∧
                c.target_adjust_info
                  = TargetAdjustInfo.encode startH.time startH.bits)))) := by
  refine ⟨{ id := 0, tip_block_hash := 2
            headers_mmr_root := { min_height := 0, max_height := 2, chain_work := 0, header_hash := 5 }
            target_adjust_info := { start_time := 100, bits := 200 } },
          { headers := [{ version := 0, prev_blockhash := 1, merkle_root := 0,
                          time := 110, bits := 210, nonce := 2 }]
            new_headers_mmr_proof :=
              [{ min_height := 1, max_height := 1, chain_work := 0, header_hash := 1 }] },
          rfl, ?_⟩
  exact generate_spv_client_target_adjust_info exampleHash exampleFns c4Storage 0 10 1 _ _
    rfl rfl

/-- A successful association-list lookup returns an element of the list. -/
theorem lookup_mem :
    ∀ {l : List (Nat × SpvClientCell)} {k : Nat} {v : SpvClientCell},
      l.lookup k = some v → (k, v) ∈ l := by
  intro l
  induction l with
  | nil => intro k v h; simp [List.lookup] at h
  | cons p rest ih =>
    intro k v h
    obtain ⟨a, b⟩ := p
    by_cases hk : k = a
    · subst hk
      simp [List.lookup] at h
      simp [h]
    · have hne : (k == a) = false := by simp [hk]
      rw [List.lookup, hne] at h
      exact List.mem_cons_of_mem _ (ih h)

/-- When every client in the map is above `height`, the spec-side first-match
search fails on any id sequence. -/
theorem find_first_good_err (clients : List (Nat × SpvClientCell)) (height : Nat)
    (hall : ∀ p ∈ clients, height < p.2.client.headers_mmr_root.max_height) :
    ∀ ids, ∃ e, find_first_good clients height ids = .error e := by
  intro ids
  induction ids with
  | nil => exact ⟨_, rfl⟩
  | cons i rest ih =>
    rcases hl : clients.lookup i with _ | cell
    · exact ⟨.otherError "the SPV client is not found", by simp [find_first_good, hl]⟩
    · have hgt : height < cell.client.headers_mmr_root.max_height :=
        hall (i, cell) (lookup_mem hl)
      obtain ⟨e, he⟩ := ih
      refine ⟨e, ?_⟩
      simp only [find_first_good, hl]
      rw [if_neg (by omega)]
      exact he

/-- The source loop of `find_best_spv_client_not_greater_than_height` equals
the spec-side first-match search over the backwards id sequence. -/
theorem find_best_loop_eq (clients : List (Nat × SpvClientCell)) (height : Nat) :
    ∀ (fuel : Nat) (info : SpvInfoCell),
      find_best_loop clients height fuel info
        = find_first_good clients height
            (visit_ids info.clients_count info.info.tip_client_id fuel) := by
  intro fuel
  induction fuel with
  | zero => intro info; rfl
  | succ n ih =>
    intro info
    simp only [find_best_loop, visit_ids, find_first_good]
    rcases hl : clients.lookup info.info.tip_client_id with _ | cell
    · simp only [hl]
    · simp only [hl]
      by_cases hle : cell.client.headers_mmr_root.max_height ≤ height
      · simp [hle]
      · simp only [if_neg hle]
        rw [ih]
        exact rfl

/-- The backwards id sequence has one entry per step. -/
theorem visit_ids_length (n : Nat) :
    ∀ (fuel tip : Nat), (visit_ids n tip fuel).length = fuel := by
  intro fuel
  induction fuel with
  | zero => intro tip; rfl
  | succ m ih => intro tip; simp [visit_ids, ih]

/-- Closed form of the backwards id sequence: step `k` visits
`(tip + (n - k)) % n`, i.e. the tip id decremented `k` times modulo `n`. -/
theorem visit_ids_closed (n : Nat) :
    ∀ (fuel tip : Nat), fuel ≤ n → tip < n →
      visit_ids n tip fuel = (List.range fuel).map (fun k => (tip + (n - k)) % n) := by
  intro fuel
  induction fuel with
  | zero => intro tip _ _; rfl
  | succ m ih =>
    intro tip hf ht
    rw [visit_ids, List.range_succ_eq_map]
    simp only [List.map_cons, List.map_map]
    congr 1
    · have : (tip + (n - 0)) % n = tip := by
        rw [Nat.sub_zero, Nat.add_mod_right]
        exact Nat.mod_eq_of_lt ht
      exact this.symm
    · rw [ih (prevId n tip) (by omega) (by unfold prevId; split_ifs <;> omega)]
      apply List.map_congr_left
      intro k hk
      have hkm : k < m := List.mem_range.mp hk
      simp only [Function.comp]
      unfold prevId
      by_cases h0 : tip = 0
      · subst h0
        rw [if_pos rfl]
        have h1 : n - 1 + (n - k) = (n - (k + 1)) + n := by omega
        rw [h1, Nat.add_mod_right]
        simp
      · rw [if_neg h0]
        have h1 : tip - 1 + (n - k) = tip + (n - (k + 1)) := by omega
        rw [h1]

/-- C8: `find_best_spv_client_not_greater_than_height` equals the spec-side
first-match search over the id sequence that starts at `tip_client_id` and
decrements modulo `clients_count`, stepping at most `clients.len()` times
(which is `clients_count` on a well-formed instance); the sequence visits
`(tip + (n - k)) % n` at step `k`; and when no client in the ring satisfies
the height bound the function returns an error. -/
theorem find_best_spv_client_spec :
    (∀ (ins : SpvInstance) (h : Nat),
       ins.find_best_spv_client_not_greater_than_height h
         = find_first_good ins.clients h
             (visit_ids ins.info.clients_count ins.info.info.tip_client_id
               ins.clients.length)) ∧
    (∀ n fuel tip : Nat, fuel ≤ n → tip < n →
       visit_ids n tip fuel = (List.range fuel).map (fun k => (tip + (n - k)) % n)) ∧
    (∀ n fuel tip : Nat, (visit_ids n tip fuel).length = fuel) ∧
    (∀ (ins : SpvInstance) (h : Nat),
       (∀ p ∈ ins.clients, h < p.2.client.headers_mmr_root.max_height) →
       ∃ e, ins.find_best_spv_client_not_greater_than_height h = .error e) := by
  refine ⟨?_, ?_, ?_, ?_⟩
  · intro ins h
    exact find_best_loop_eq ins.clients h ins.clients.length ins.info
  · intro n fuel tip hf ht
    exact visit_ids_closed n fuel tip hf ht
  · intro n fuel tip
    exact visit_ids_length n fuel tip
  · intro ins h hall
    unfold SpvInstance.find_best_spv_client_not_greater_than_height
    rw [find_best_loop_eq ins.clients h ins.clients.length ins.info]
    exact find_first_good_err ins.clients h hall _

/-- Witness for C8: on the three-client ring `c3Instance` the search equals
the spec-side search, the visit sequence is the closed form, and a height
below the whole ring yields an error. -/
theorem find_best_spv_client_spec_witness :
    (c3Instance.find_best_spv_client_not_greater_than_height 2041
       = find_first_good c3Instance.clients 2041 (visit_ids 3 2 3)) ∧
    visit_ids 3 2 3 = (List.range 3).map (fun k => (2 + (3 - k)) % 3) ∧
    (visit_ids 3 2 3).length = 3 ∧
    (∃ e, c3Instance.find_best_spv_client_not_greater_than_height 2000 = .error e) := by
  exact ⟨find_best_spv_client_spec.1 c3Instance 2041,
         find_best_spv_client_spec.2.1 3 3 2 (by omega) (by omega),
         find_best_spv_client_spec.2.2.1 3 3 2,
         find_best_spv_client_spec.2.2.2 c3Instance 2000 (by decide)⟩

/-- C3 (amended): when exactly the tip client is stale —
its storage root disagrees while the previous client's agrees —
`prepare_reorg_input` returns exactly that one stale client, with `curr` the
previous client; no extra stale client is added. -/
theorem prepare_reorg_single_stale
    (stg_root : Nat → Except StgError HeaderDigest) (ins : SpvInstance)
    (tip_cell prev_cell : SpvClientCell) (r : HeaderDigest)
    (hlen : 2 ≤ ins.clients.length)
    (htip : ins.clients.lookup ins.info.info.tip_client_id = some tip_cell)
    (hprev : ins.clients.lookup ins.info.prev_tip_client_id = some prev_cell)
    (hstale : stg_root tip_cell.client.headers_mmr_root.max_height = .ok r)
    (hne : r ≠ tip_cell.client.headers_mmr_root)
    (hagree : stg_root prev_cell.client.headers_mmr_root.max_height
        = .ok prev_cell.client.headers_mmr_root) :
    prepare_reorg_input stg_root ins
      = .ok { info := { ins.info with info := { tip_client_id := ins.info.prev_tip_client_id } }
              curr := prev_cell
              stale := [tip_cell] } := by
  obtain ⟨k, hk⟩ : ∃ k, ins.clients.length = k + 2 := ⟨ins.clients.length - 2, by omega⟩
  unfold prepare_reorg_input
  rw [hk]
  simp [reorg_loop, htip, hstale, hne, hprev, hagree]

/-- Witness for the amended C3: the concrete one-stale ring. -/
theorem prepare_reorg_single_stale_witness :
    prepare_reorg_input c3Root c3Instance
      = .ok { info := { info := { tip_client_id := 1 }
                        cell := { out_point := 100, output_data := .unknownData }
                        clients_count := 3 }
              curr := mkClientCell 1 2040
              stale := [mkClientCell 2 2050] } := by
  exact prepare_reorg_single_stale c3Root c3Instance (mkClientCell 2 2050)
    (mkClientCell 1 2040)
    { min_height := 0, max_height := 2050, chain_work := 1, header_hash := 999 }
    (by decide) rfl rfl rfl (by decide) rfl

/-- Each map insert grows the map by at most one entry. -/
theorem hashmap_insert_len (m : List (Nat × SpvClientCell)) (k : Nat) (v : SpvClientCell) :
    (hashmap_insert m k v).length ≤ m.length + 1 := by
  simp only [hashmap_insert, List.length_cons]
  have := List.length_filter_le (fun p : Nat × SpvClientCell => p.1 ≠ k) m
  omega

/-- Once the info cell is found, the parse loop keeps it and adds at most one
client entry per remaining cell. -/
theorem parse_loop_info_some (cc : Nat) :
    ∀ (cells : List LiveCell) (acc : List (Nat × SpvClientCell)) (i0 : SpvInfoCell)
      (info1 : Option SpvInfoCell) (c1 : List (Nat × SpvClientCell)),
      parse_cells_loop cc cells (some i0) acc = .ok (info1, c1) →
      info1 = some i0 ∧ c1.length ≤ acc.length + cells.length := by
  intro cells
  induction cells with
  | nil =>
    intro acc i0 info1 c1 h
    simp only [parse_cells_loop, Except.ok.injEq, Prod.mk.injEq] at h
    exact ⟨h.1.symm, by rw [← h.2]; omega⟩
  | cons cell rest ih =>
    intro acc i0 info1 c1 h
    rcases hd : cell.output_data with c | i | _
    · simp only [parse_cells_loop, hd] at h
      obtain ⟨h1, h2⟩ := ih _ i0 _ _ h
      have := hashmap_insert_len acc c.id { client := c, cell := cell }
      exact ⟨h1, by simp only [List.length_cons]; omega⟩
    · simp only [parse_cells_loop, hd, Option.isSome_some, if_true] at h
      exact absurd h (by simp)
    · simp only [parse_cells_loop, hd] at h
      exact absurd h (by simp)

/-- Starting without an info cell, a successful parse yields the recorded
`clients_count` and consumes one cell for the info, so the client map holds
at most `cells.length - 1` entries. -/
theorem parse_loop_info_none (cc : Nat) :
    ∀ (cells : List LiveCell) (acc : List (Nat × SpvClientCell)) (inf : SpvInfoCell)
      (c1 : List (Nat × SpvClientCell)),
      parse_cells_loop cc cells none acc = .ok (some inf, c1) →
      inf.clients_count = cc ∧ c1.length + 1 ≤ acc.length + cells.length := by
  intro cells
  induction cells with
  | nil =>
    intro acc inf c1 h
    simp only [parse_cells_loop, Except.ok.injEq, Prod.mk.injEq] at h
    exact absurd h.1 (by simp)
  | cons cell rest ih =>
    intro acc inf c1 h
    rcases hd : cell.output_data with c | i | _
    · simp only [parse_cells_loop, hd] at h
      obtain ⟨h1, h2⟩ := ih _ inf c1 h
      have := hashmap_insert_len acc c.id { client := c, cell := cell }
      exact ⟨h1, by simp only [List.length_cons]; omega⟩
    · simp only [parse_cells_loop, hd, Option.isSome_none, Bool.false_eq_true, if_false] at h
      obtain ⟨h1, h2⟩ := parse_loop_info_some cc rest acc
        { info := i, cell := cell, clients_count := cc } (some inf) c1 h
      have hinf : inf = { info := i, cell := cell, clients_count := cc } := by
        simpa using h1
      exact ⟨by rw [hinf], by simp only [List.length_cons]; omega⟩
    · simp only [parse_cells_loop, hd] at h
      exact absurd h (by simp)

/-- C9 (amended): a successful `find_spv_cells` guarantees only that the
live-cell count equals `clients_count + 1`, that the recorded
`clients_count` equals the type-args count, and that the client map holds at
most `clients_count` entries (one cell is the unique info cell and duplicate
client ids collapse); neither `clients_count ≥ 3` nor
`tip_client_id < clients_count` nor completeness of the ids is validated. -/
theorem find_spv_cells_shape (args_count : Nat) (cells : List LiveCell) (ins : SpvInstance)
    (h : find_spv_cells args_count cells = .ok ins) :
    cells.length = args_count + 1 ∧
    ins.info.clients_count = args_count ∧
    ins.clients.length ≤ args_count := by
  unfold find_spv_cells find_raw_spv_cells at h
  by_cases hlen : cells.length = args_count + 1
  · rw [if_pos hlen] at h
    unfold parse_raw_spv_cells at h
    rcases hp : parse_cells_loop (cells.length - 1) cells none [] with e | ⟨io, cl⟩
    · simp only [hp] at h
      exact absurd h (by simp)
    · simp only [hp] at h
      rcases io with _ | inf
      · exact absurd h (by simp)
      · have hins : ins = { info := inf, clients := cl } := by
          simpa using h.symm
        obtain ⟨h1, h2⟩ := parse_loop_info_none (cells.length - 1) cells [] inf cl hp
        refine ⟨hlen, ?_, ?_⟩
        · rw [hins]
          simp only []
          rw [h1, hlen]
          omega
        · rw [hins]
          simp only [List.length_nil] at h2
          simp only []
          omega
  · rw [if_neg hlen] at h
    exact absurd h (by simp)

/-- Witness for the amended C9: the duplicate-id cell set. -/
theorem find_spv_cells_shape_witness :
    ∃ ins, find_spv_cells 2 c9Cells = .ok ins ∧
      (c9Cells.length = 2 + 1 ∧ ins.info.clients_count = 2 ∧ ins.clients.length ≤ 2) := by
  refine ⟨_, rfl, find_spv_cells_shape 2 c9Cells _ rfl⟩

end Spv
